import Mathlib

/-!
Verification of the regulated strategic lending engine.

The development shallowly embeds the Python sources over exact rational
arithmetic:
- src/env/borrower.py        : Borrower, best_response, adjustment_cost
- src/env/environment.py     : StrategicLendingEnv.evaluate_threshold,
                               StrategicLendingEnv.sweep_lambda,
                               StrategicLendingEnv.reset_population
- src/util/sweep_params.py   : find_unregulated_optimum, the top-K ranking

Machine floats are modelled by rationals; the one place where IEEE special
values matter (non-finite objectives in the grid scan) gets a dedicated
float model Fl further below.
-/

namespace Lending

/-- Borrower agent record, from src/env/borrower.py. -/
structure Borrower where
  z : ℚ
  k : ℚ
  theta : ℚ
  b : ℚ
  h : ℚ
  is_low_cost : Bool
  deriving Repr, DecidableEq

/-- Whether the borrower is creditworthy (good): z >= theta. -/
def Borrower.is_good (br : Borrower) : Bool :=
  decide (br.z ≥ br.theta)

/-- Best-response adjustment given lender threshold t
(src/env/borrower.py, lines 21-44). -/
def Borrower.best_response (br : Borrower) (t : ℚ) : ℚ :=
  if br.z ≥ t then 0
  else
    let delta := t - br.z
    if delta ≤ 0 then 0
    else
      let U_adjust := br.b - br.k * delta ^ 2
      let U_no : ℚ := if br.is_good then -br.h else 0
      if U_adjust ≥ U_no then delta else 0

/-- Quadratic adjustment cost k * a^2 (src/env/borrower.py, lines 46-48). -/
def Borrower.adjustment_cost (br : Borrower) (a : ℚ) : ℚ :=
  br.k * a ^ 2

/-- The utility of not adjusting, as computed inside best_response. -/
def Borrower.U_no (br : Borrower) : ℚ :=
  if br.is_good then -br.h else 0

/-- A borrower is accepted at threshold t when the reported score
z + best_response t reaches t (src/env/environment.py, lines 104-109). -/
def acceptedAt (br : Borrower) (t : ℚ) : Bool :=
  decide (br.z + br.best_response t ≥ t)

/-- Claim C2: best_response returns 0 when z >= t; otherwise with
delta = t - z it returns delta exactly when b - k*delta^2 >= U_no
(U_no = -h for a good borrower, 0 otherwise), and 0 otherwise;
at the exact tie b - k*delta^2 = U_no the result is delta. -/
theorem C2_best_response_formula (br : Borrower) (t : ℚ) :
    br.best_response t =
      (if br.z ≥ t then 0
       else if br.b - br.k * (t - br.z) ^ 2 ≥ (if br.is_good then -br.h else 0)
       then t - br.z else 0) ∧
    (br.z < t →
      br.b - br.k * (t - br.z) ^ 2 = (if br.is_good then -br.h else 0) →
      br.best_response t = t - br.z) := by
  constructor
  · rw [Borrower.best_response]
    by_cases hzt : br.z ≥ t
    · simp [hzt]
    · have hlt : br.z < t := lt_of_not_ge hzt
      have hdelta : ¬ (t - br.z ≤ 0) := by linarith
      simp [hzt, hdelta]
  · intro hlt htie
    have hzt : ¬ (br.z ≥ t) := not_le.mpr hlt
    have hdelta : ¬ (t - br.z ≤ 0) := by linarith
    rw [Borrower.best_response]
    simp only [if_neg hzt, if_neg hdelta]
    rw [if_pos (le_of_eq htie.symm)]

/-- Witness for C2 at a concrete exact tie: a good borrower with
z = 0, theta = 0, b = 2/5, k = 9/10, h = 1/2 facing t = 1 has
U_adjust = 2/5 - 9/10 = -1/2 = -h = U_no, and adjusts by delta = 1. -/
theorem C2_best_response_formula_witness :
    ((0 : ℚ) < 1) ∧
    ((2 / 5 : ℚ) - (9 / 10) * ((1 : ℚ) - 0) ^ 2 =
      (if (Borrower.mk 0 (9/10) 0 (2/5) (1/2) true).is_good
       then -(1/2 : ℚ) else 0)) ∧
    (Borrower.mk 0 (9/10) 0 (2/5) (1/2) true).best_response 1 = 1 - 0 := by
  refine ⟨by norm_num, by norm_num [Borrower.is_good], ?_⟩
  exact (C2_best_response_formula (Borrower.mk 0 (9/10) 0 (2/5) (1/2) true) 1).2
    (by norm_num) (by norm_num [Borrower.is_good])

/-- Per-(threshold, penalty) statistics returned by evaluate_threshold. -/
structure Stats where
  Pi : ℚ
  H : ℕ
  acc_L : ℚ
  acc_H : ℚ
  avg_cost_L : ℚ
  avg_cost_H : ℚ
  deriving Repr, DecidableEq

/-- The lending environment state that evaluate_threshold reads:
per-loan profits and the borrower population. -/
structure StrategicLendingEnv where
  pi_G : ℚ
  pi_B : ℚ
  borrowers : List Borrower
  deriving Repr, DecidableEq

/-- Accumulator of the single pass over the population inside
evaluate_threshold (src/env/environment.py, lines 95-133). -/
structure Acc where
  Pi : ℚ
  H : ℕ
  n_L : ℕ
  n_H : ℕ
  acc_L : ℕ
  acc_H : ℕ
  cost_L : ℚ
  cost_H : ℚ
  deriving Repr, DecidableEq

/-- The loop body of evaluate_threshold for one borrower
(src/env/environment.py, lines 104-133). -/
def stepAcc (pi_G pi_B t : ℚ) (acc : Acc) (br : Borrower) : Acc :=
  let a := br.best_response t
  let s := br.z + a
  let accepted : Bool := decide (s ≥ t)
  let good := br.is_good
  let Pi := if accepted then (if good then acc.Pi + pi_G else acc.Pi + pi_B) else acc.Pi
  let H := if !accepted && good then acc.H + 1 else acc.H
  if br.is_low_cost then
    { Pi := Pi, H := H, n_L := acc.n_L + 1, n_H := acc.n_H,
      acc_L := if accepted then acc.acc_L + 1 else acc.acc_L, acc_H := acc.acc_H,
      cost_L := acc.cost_L + br.adjustment_cost a, cost_H := acc.cost_H }
  else
    { Pi := Pi, H := H, n_L := acc.n_L, n_H := acc.n_H + 1,
      acc_L := acc.acc_L, acc_H := if accepted then acc.acc_H + 1 else acc.acc_H,
      cost_L := acc.cost_L, cost_H := acc.cost_H + br.adjustment_cost a }

/-- The all-zero initial accumulator of evaluate_threshold. -/
def initAcc : Acc :=
  { Pi := 0, H := 0, n_L := 0, n_H := 0, acc_L := 0, acc_H := 0,
    cost_L := 0, cost_H := 0 }

/-- evaluate_threshold (src/env/environment.py, lines 87-152): single pass
over the population, then group rates guarded against empty groups, and the
objective Pi - lam * H. -/
def StrategicLendingEnv.evaluate_threshold (env : StrategicLendingEnv)
    (t lam : ℚ) : ℚ × Stats :=
  let acc := env.borrowers.foldl (stepAcc env.pi_G env.pi_B t) initAcc
  let acc_L_rate : ℚ := if acc.n_L > 0 then (acc.acc_L : ℚ) / (acc.n_L : ℚ) else 0
  let acc_H_rate : ℚ := if acc.n_H > 0 then (acc.acc_H : ℚ) / (acc.n_H : ℚ) else 0
  let avg_cost_L : ℚ := if acc.n_L > 0 then acc.cost_L / (acc.n_L : ℚ) else 0
  let avg_cost_H : ℚ := if acc.n_H > 0 then acc.cost_H / (acc.n_H : ℚ) else 0
  let objective := acc.Pi - lam * (acc.H : ℚ)
  (objective,
    { Pi := acc.Pi, H := acc.H, acc_L := acc_L_rate, acc_H := acc_H_rate,
      avg_cost_L := avg_cost_L, avg_cost_H := avg_cost_H })

/-- Profit contribution of one borrower, phrased as the claim states it:
pi_G for an accepted good borrower, pi_B for an accepted non-good borrower,
0 when denied. -/
def specProfit (pi_G pi_B t : ℚ) (br : Borrower) : ℚ :=
  if acceptedAt br t then (if br.is_good then pi_G else pi_B) else 0

/-- Harm count, phrased as the claim states it: the number of borrowers
that are good and not accepted. -/
def specHarm (t : ℚ) (brs : List Borrower) : ℕ :=
  (brs.filter (fun br => !(acceptedAt br t) && br.is_good)).length

theorem stepAcc_Pi (pi_G pi_B t : ℚ) (acc : Acc) (br : Borrower) :
    (stepAcc pi_G pi_B t acc br).Pi = acc.Pi + specProfit pi_G pi_B t br := by
  unfold stepAcc specProfit acceptedAt
  rcases hl : br.is_low_cost with _ | _ <;>
    rcases ha : decide (br.z + br.best_response t ≥ t) with _ | _ <;>
      rcases hg : br.is_good with _ | _ <;>
        simp [hl, ha, hg]

theorem stepAcc_H (pi_G pi_B t : ℚ) (acc : Acc) (br : Borrower) :
    (stepAcc pi_G pi_B t acc br).H =
      acc.H + (if !(acceptedAt br t) && br.is_good then 1 else 0) := by
  unfold stepAcc acceptedAt
  rcases hl : br.is_low_cost with _ | _ <;>
    rcases ha : decide (br.z + br.best_response t ≥ t) with _ | _ <;>
      rcases hg : br.is_good with _ | _ <;>
        simp [hl, ha, hg]

theorem foldl_stepAcc_Pi (pi_G pi_B t : ℚ) :
    ∀ (brs : List Borrower) (acc : Acc),
      (brs.foldl (stepAcc pi_G pi_B t) acc).Pi =
        acc.Pi + (brs.map (specProfit pi_G pi_B t)).sum
  | [], acc => by simp
  | br :: brs, acc => by
      rw [List.foldl_cons, foldl_stepAcc_Pi pi_G pi_B t brs, stepAcc_Pi]
      simp [add_assoc]

theorem foldl_stepAcc_H (pi_G pi_B t : ℚ) :
    ∀ (brs : List Borrower) (acc : Acc),
      (brs.foldl (stepAcc pi_G pi_B t) acc).H = acc.H + specHarm t brs
  | [], acc => by simp [specHarm]
  | br :: brs, acc => by
      rw [List.foldl_cons, foldl_stepAcc_H pi_G pi_B t brs, stepAcc_H]
      unfold specHarm
      rcases h : (!(acceptedAt br t) && br.is_good) with _ | _ <;>
        simp [List.filter_cons, h, Nat.add_assoc, Nat.add_comm 1]

/-- Claim C1: evaluate_threshold returns objective = Pi - lam*H, where Pi
sums pi_G over accepted good borrowers and pi_B over accepted non-good
borrowers (0 when denied), H counts good-but-denied borrowers, and a
borrower is accepted exactly when z + best_response(t) >= t. -/
theorem C1_objective_formula (env : StrategicLendingEnv) (t lam : ℚ) :
    (env.evaluate_threshold t lam).1 =
      (env.borrowers.map (specProfit env.pi_G env.pi_B t)).sum
        - lam * (specHarm t env.borrowers : ℚ) ∧
    (env.evaluate_threshold t lam).2.Pi =
      (env.borrowers.map (specProfit env.pi_G env.pi_B t)).sum ∧
    (env.evaluate_threshold t lam).2.H = specHarm t env.borrowers := by
  simp only [StrategicLendingEnv.evaluate_threshold, foldl_stepAcc_Pi,
    foldl_stepAcc_H, initAcc]
  simp

theorem stepAcc_n_L (pi_G pi_B t : ℚ) (acc : Acc) (br : Borrower) :
    (stepAcc pi_G pi_B t acc br).n_L =
      acc.n_L + (if br.is_low_cost then 1 else 0) := by
  unfold stepAcc
  rcases hl : br.is_low_cost with _ | _ <;> simp [hl]

theorem stepAcc_n_H (pi_G pi_B t : ℚ) (acc : Acc) (br : Borrower) :
    (stepAcc pi_G pi_B t acc br).n_H =
      acc.n_H + (if br.is_low_cost then 0 else 1) := by
  unfold stepAcc
  rcases hl : br.is_low_cost with _ | _ <;> simp [hl]

theorem foldl_stepAcc_n_L (pi_G pi_B t : ℚ) :
    ∀ (brs : List Borrower) (acc : Acc),
      (brs.foldl (stepAcc pi_G pi_B t) acc).n_L =
        acc.n_L + brs.countP (fun br => br.is_low_cost)
  | [], acc => by simp
  | br :: brs, acc => by
      rw [List.foldl_cons, foldl_stepAcc_n_L pi_G pi_B t brs, stepAcc_n_L]
      rcases hl : br.is_low_cost with _ | _ <;>
        simp [List.countP_cons, hl, Nat.add_assoc, Nat.add_comm 1]

theorem foldl_stepAcc_n_H (pi_G pi_B t : ℚ) :
    ∀ (brs : List Borrower) (acc : Acc),
      (brs.foldl (stepAcc pi_G pi_B t) acc).n_H =
        acc.n_H + brs.countP (fun br => !br.is_low_cost)
  | [], acc => by simp
  | br :: brs, acc => by
      rw [List.foldl_cons, foldl_stepAcc_n_H pi_G pi_B t brs, stepAcc_n_H]
      rcases hl : br.is_low_cost with _ | _ <;>
        simp [List.countP_cons, hl, Nat.add_assoc, Nat.add_comm 1]

/-- Claim C4: when a group has zero members its acceptance rate and average
adjustment cost come out exactly 0 (the guarded division), and on the empty
population evaluate_threshold returns objective 0, Pi = 0, H = 0 and all
four group statistics 0. -/
theorem C4_empty_groups (env : StrategicLendingEnv) (t lam : ℚ) :
    (env.borrowers.countP (fun br => br.is_low_cost) = 0 →
      (env.evaluate_threshold t lam).2.acc_L = 0 ∧
      (env.evaluate_threshold t lam).2.avg_cost_L = 0) ∧
    (env.borrowers.countP (fun br => !br.is_low_cost) = 0 →
      (env.evaluate_threshold t lam).2.acc_H = 0 ∧
      (env.evaluate_threshold t lam).2.avg_cost_H = 0) ∧
    (env.borrowers = [] →
      (env.evaluate_threshold t lam) =
        (0, { Pi := 0, H := 0, acc_L := 0, acc_H := 0,
              avg_cost_L := 0, avg_cost_H := 0 })) := by
  refine ⟨?_, ?_, ?_⟩
  · intro h0
    have hnL : (env.borrowers.foldl (stepAcc env.pi_G env.pi_B t) initAcc).n_L = 0 := by
      rw [foldl_stepAcc_n_L, h0]
      simp [initAcc]
    simp [StrategicLendingEnv.evaluate_threshold, hnL]
  · intro h0
    have hnH : (env.borrowers.foldl (stepAcc env.pi_G env.pi_B t) initAcc).n_H = 0 := by
      rw [foldl_stepAcc_n_H, h0]
      simp [initAcc]
    simp [StrategicLendingEnv.evaluate_threshold, hnH]
  · intro h0
    simp [StrategicLendingEnv.evaluate_threshold, h0, initAcc]

/-- Witness for C4: the empty population satisfies all three hypotheses, and
the conclusions evaluate as stated. -/
theorem C4_empty_groups_witness :
    ((StrategicLendingEnv.mk (1/5) (-1/5) []).borrowers.countP
        (fun br => br.is_low_cost) = 0) ∧
    ((StrategicLendingEnv.mk (1/5) (-1/5) []).borrowers.countP
        (fun br => !br.is_low_cost) = 0) ∧
    ((StrategicLendingEnv.mk (1/5) (-1/5) []).borrowers = []) ∧
    ((StrategicLendingEnv.mk (1/5) (-1/5) []).evaluate_threshold 0 1 =
      (0, { Pi := 0, H := 0, acc_L := 0, acc_H := 0,
            avg_cost_L := 0, avg_cost_H := 0 })) := by
  refine ⟨by simp, by simp, rfl, ?_⟩
  exact (C4_empty_groups (StrategicLendingEnv.mk (1/5) (-1/5) []) 0 1).2.2 rfl

/-- Claim C8: the concrete three-borrower scenario with theta = 0,
pi_G = 1/5, pi_B = -1/5 at t = 0: A(z=-1,k=1/10,b=1,h=1/2) adjusts by
delta = 1 and is accepted as not good, B(z=0,k=1/10) and C(z=2,k=1/10)
(any b, h) are accepted as good, so Pi = 1/5 and H = 0. -/
theorem C8_concrete_scenario (bB hB bC hC lam : ℚ) :
    (Borrower.mk (-1) (1/10) 0 1 (1/2) true).best_response 0 = 1 ∧
    acceptedAt (Borrower.mk (-1) (1/10) 0 1 (1/2) true) 0 = true ∧
    (Borrower.mk (-1) (1/10) 0 1 (1/2) true).is_good = false ∧
    (Borrower.mk 0 (1/10) 0 bB hB true).best_response 0 = 0 ∧
    acceptedAt (Borrower.mk 0 (1/10) 0 bB hB true) 0 = true ∧
    (Borrower.mk 0 (1/10) 0 bB hB true).is_good = true ∧
    (Borrower.mk 2 (1/10) 0 bC hC true).best_response 0 = 0 ∧
    acceptedAt (Borrower.mk 2 (1/10) 0 bC hC true) 0 = true ∧
    (Borrower.mk 2 (1/10) 0 bC hC true).is_good = true ∧
    ((StrategicLendingEnv.mk (1/5) (-1/5)
        [Borrower.mk (-1) (1/10) 0 1 (1/2) true,
         Borrower.mk 0 (1/10) 0 bB hB true,
         Borrower.mk 2 (1/10) 0 bC hC true]).evaluate_threshold 0 lam).2.Pi
      = 1/5 ∧
    ((StrategicLendingEnv.mk (1/5) (-1/5)
        [Borrower.mk (-1) (1/10) 0 1 (1/2) true,
         Borrower.mk 0 (1/10) 0 bB hB true,
         Borrower.mk 2 (1/10) 0 bC hC true]).evaluate_threshold 0 lam).2.H
      = 0 := by
  have hA : (Borrower.mk (-1) (1/10) 0 1 (1/2) true).best_response 0 = 1 := by
    norm_num [Borrower.best_response, Borrower.is_good]
  have hB0 : (Borrower.mk 0 (1/10) 0 bB hB true).best_response 0 = 0 := by
    norm_num [Borrower.best_response]
  have hC0 : (Borrower.mk 2 (1/10) 0 bC hC true).best_response 0 = 0 := by
    norm_num [Borrower.best_response]
  refine ⟨hA, ?_, ?_, hB0, ?_, ?_, hC0, ?_, ?_, ?_, ?_⟩
  · simp only [acceptedAt, hA]
    norm_num
  · norm_num [Borrower.is_good]
  · simp only [acceptedAt, hB0]
    norm_num
  · norm_num [Borrower.is_good]
  · simp only [acceptedAt, hC0]
    norm_num
  · norm_num [Borrower.is_good]
  · simp only [StrategicLendingEnv.evaluate_threshold, List.foldl_cons,
      List.foldl_nil, stepAcc, initAcc, hA, hB0, hC0]
    norm_num [Borrower.is_good, Borrower.adjustment_cost]
  · simp only [StrategicLendingEnv.evaluate_threshold, List.foldl_cons,
      List.foldl_nil, stepAcc, initAcc, hA, hB0, hC0]
    norm_num [Borrower.is_good, Borrower.adjustment_cost]

/-- Adjustment is never beneficial for this borrower: at every threshold
above z the utility of adjusting falls strictly below the utility of not
adjusting. -/
def neverBeneficial (br : Borrower) : Prop :=
  ∀ t : ℚ, br.z < t → br.b - br.k * (t - br.z) ^ 2 < br.U_no

theorem best_response_eq_zero_of_neverBeneficial (br : Borrower)
    (hk : neverBeneficial br) (t : ℚ) : br.best_response t = 0 := by
  rw [Borrower.best_response]
  by_cases hzt : br.z ≥ t
  · simp [hzt]
  · have hlt : br.z < t := lt_of_not_ge hzt
    have hdelta : ¬ (t - br.z ≤ 0) := by linarith
    have hcond : ¬ (br.b - br.k * (t - br.z) ^ 2 ≥ (if br.is_good then -br.h else 0)) := by
      have := hk t hlt
      rw [Borrower.U_no] at this
      exact not_le.mpr this
    simp [hzt, hdelta, hcond]

/-- Claim C9: for a borrower for whom adjusting is never beneficial,
acceptance is non-increasing in the threshold: accepted at t2 implies
accepted at every t1 <= t2. -/
theorem C9_acceptance_monotone (br : Borrower) (hk : neverBeneficial br)
    (t1 t2 : ℚ) (h12 : t1 ≤ t2) (h2 : acceptedAt br t2 = true) :
    acceptedAt br t1 = true := by
  have e2 := best_response_eq_zero_of_neverBeneficial br hk t2
  have e1 := best_response_eq_zero_of_neverBeneficial br hk t1
  rw [acceptedAt, e2] at h2
  rw [acceptedAt, e1]
  have hz2 : br.z + 0 ≥ t2 := of_decide_eq_true h2
  exact decide_eq_true (by linarith)

/-- Witness for C9: a good borrower with z = 0, k = 1, b = -1, h = 1/2
never benefits from adjusting; it is accepted at t = 0 and hence also at
t = -1. -/
theorem C9_acceptance_monotone_witness :
    neverBeneficial (Borrower.mk 0 1 0 (-1) (1/2) true) ∧
    ((-1 : ℚ) ≤ 0) ∧
    acceptedAt (Borrower.mk 0 1 0 (-1) (1/2) true) 0 = true ∧
    acceptedAt (Borrower.mk 0 1 0 (-1) (1/2) true) (-1) = true := by
  have hk : neverBeneficial (Borrower.mk 0 1 0 (-1) (1/2) true) := by
    intro t ht
    simp only [Borrower.U_no, Borrower.is_good]
    norm_num
    nlinarith [sq_nonneg t]
  have h2 : acceptedAt (Borrower.mk 0 1 0 (-1) (1/2) true) 0 = true := by
    norm_num [acceptedAt, Borrower.best_response]
  exact ⟨hk, by norm_num, h2,
    C9_acceptance_monotone (Borrower.mk 0 1 0 (-1) (1/2) true) hk (-1) 0
      (by norm_num) h2⟩

/-- Claim C10: best_response is always nonnegative; whenever it is
positive the reported score z + best_response(t) equals t exactly, so the
borrower is accepted; hence a denied borrower always has adjustment 0 and
adjustment cost 0. -/
theorem C10_no_wasted_adjustment (br : Borrower) (t : ℚ) :
    0 ≤ br.best_response t ∧
    (0 < br.best_response t →
      br.z + br.best_response t = t ∧ acceptedAt br t = true) ∧
    (acceptedAt br t = false →
      br.best_response t = 0 ∧
      br.adjustment_cost (br.best_response t) = 0) := by
  have hcases : br.best_response t = 0 ∨
      (br.best_response t = t - br.z ∧ br.z < t) := by
    rw [Borrower.best_response]
    by_cases hzt : br.z ≥ t
    · simp [hzt]
    · have hlt : br.z < t := lt_of_not_ge hzt
      have hdelta : ¬ (t - br.z ≤ 0) := by linarith
      by_cases hcond :
          br.b - br.k * (t - br.z) ^ 2 ≥ (if br.is_good then -br.h else 0)
      · right
        constructor
        · simp [hzt, hdelta, hcond]
        · exact hlt
      · left
        simp [hzt, hdelta, hcond]
  rcases hcases with h0 | ⟨hd, hlt⟩
  · refine ⟨by rw [h0], ?_, ?_⟩
    · intro hpos
      rw [h0] at hpos
      exact absurd hpos (lt_irrefl 0)
    · intro _
      exact ⟨h0, by rw [h0, Borrower.adjustment_cost]; ring⟩
  · refine ⟨by rw [hd]; linarith, ?_, ?_⟩
    · intro _
      refine ⟨by rw [hd]; ring, ?_⟩
      rw [acceptedAt, hd]
      exact decide_eq_true (by linarith)
    · intro hden
      rw [acceptedAt, hd] at hden
      have : ¬ (br.z + (t - br.z) ≥ t) := of_decide_eq_false hden
      exact absurd (by linarith : br.z + (t - br.z) ≥ t) this

/-- Witness for C10 at two concrete inputs: borrower A of the C8 scenario
adjusts by 1 at t = 0 and lands exactly on the threshold; a high-cost
borrower (z = 0, k = 1, b = -1, h = 1/2) is denied at t = 1 with
adjustment cost 0. -/
theorem C10_no_wasted_adjustment_witness :
    (0 < (Borrower.mk (-1) (1/10) 0 1 (1/2) true).best_response 0) ∧
    ((Borrower.mk (-1) (1/10) 0 1 (1/2) true).z
        + (Borrower.mk (-1) (1/10) 0 1 (1/2) true).best_response 0 = 0 ∧
      acceptedAt (Borrower.mk (-1) (1/10) 0 1 (1/2) true) 0 = true) ∧
    (acceptedAt (Borrower.mk 0 1 0 (-1) (1/2) true) 1 = false) ∧
    ((Borrower.mk 0 1 0 (-1) (1/2) true).best_response 1 = 0 ∧
      (Borrower.mk 0 1 0 (-1) (1/2) true).adjustment_cost
        ((Borrower.mk 0 1 0 (-1) (1/2) true).best_response 1) = 0) := by
  have hpos : 0 < (Borrower.mk (-1) (1/10) 0 1 (1/2) true).best_response 0 := by
    norm_num [Borrower.best_response, Borrower.is_good]
  have hden : acceptedAt (Borrower.mk 0 1 0 (-1) (1/2) true) 1 = false := by
    norm_num [acceptedAt, Borrower.best_response, Borrower.is_good]
  exact ⟨hpos,
    (C10_no_wasted_adjustment (Borrower.mk (-1) (1/10) 0 1 (1/2) true) 0).2.1 hpos,
    hden,
    (C10_no_wasted_adjustment (Borrower.mk 0 1 0 (-1) (1/2) true) 1).2.2 hden⟩

/-- Objective value of one grid point: first component of evaluate_threshold. -/
def objAt (env : StrategicLendingEnv) (lam t : ℚ) : ℚ :=
  (env.evaluate_threshold t lam).1

/-- Statistics of one grid point: second component of evaluate_threshold. -/
def statsAt (env : StrategicLendingEnv) (lam t : ℚ) : Stats :=
  (env.evaluate_threshold t lam).2

/-- The inner scan of sweep_lambda (src/env/environment.py, lines 161-171)
and of find_unregulated_optimum (src/util/sweep_params.py, lines 11-24):
best_obj starts at -infinity with best_t and best_stats unset, and each grid
threshold replaces the best exactly when its objective is strictly greater.
The unset initial state is the none accumulator; every rational objective is
finite, so it exceeds the -infinity start and the first grid point always
installs itself. -/
def scanBest (env : StrategicLendingEnv) (lam : ℚ) :
    List ℚ → Option (ℚ × ℚ × Stats) → Option (ℚ × ℚ × Stats)
  | [], best => best
  | t :: ts, none =>
      let r := env.evaluate_threshold t lam
      scanBest env lam ts (some (r.1, t, r.2))
  | t :: ts, some (bobj, bt, bstats) =>
      let r := env.evaluate_threshold t lam
      if bobj < r.1 then scanBest env lam ts (some (r.1, t, r.2))
      else scanBest env lam ts (some (bobj, bt, bstats))

/-- One output record of sweep_lambda: the penalty, the selected threshold,
and the statistics of the selected threshold (the Python dict flattens the
stats fields into the record). -/
structure SweepRecord where
  lam : ℚ
  t_star : ℚ
  stats : Stats
  deriving Repr, DecidableEq

/-- sweep_lambda (src/env/environment.py, lines 154-184): one record per
penalty, each obtained by scanning the threshold grid. Building the record
reads best_stats, which is unset when the threshold grid is empty; that
fallible read is the Option. -/
def StrategicLendingEnv.sweep_lambda (env : StrategicLendingEnv)
    (lambda_grid t_grid : List ℚ) : List (Option SweepRecord) :=
  lambda_grid.map (fun lam =>
    (scanBest env lam t_grid none).map (fun b => ⟨lam, b.2.1, b.2.2⟩))

theorem scanBest_nil (env : StrategicLendingEnv) (lam : ℚ)
    (best : Option (ℚ × ℚ × Stats)) : scanBest env lam [] best = best := rfl

theorem scanBest_cons_none (env : StrategicLendingEnv) (lam t : ℚ)
    (ts : List ℚ) :
    scanBest env lam (t :: ts) none =
      scanBest env lam ts (some (objAt env lam t, t, statsAt env lam t)) := rfl

theorem scanBest_cons_some (env : StrategicLendingEnv) (lam t : ℚ)
    (ts : List ℚ) (bobj bt : ℚ) (bs : Stats) :
    scanBest env lam (t :: ts) (some (bobj, bt, bs)) =
      if bobj < objAt env lam t
      then scanBest env lam ts (some (objAt env lam t, t, statsAt env lam t))
      else scanBest env lam ts (some (bobj, bt, bs)) := rfl

/-- Functional core of the scan: the running best threshold, starting from
x, after consuming the list. -/
def pickBest (f : ℚ → ℚ) (x : ℚ) : List ℚ → ℚ
  | [] => x
  | t :: ts => if f x < f t then pickBest f t ts else pickBest f x ts

theorem pickBest_cons (f : ℚ → ℚ) (x t : ℚ) (ts : List ℚ) :
    pickBest f x (t :: ts) =
      if f x < f t then pickBest f t ts else pickBest f x ts := rfl

theorem scanBest_some_eq (env : StrategicLendingEnv) (lam : ℚ) :
    ∀ (ts : List ℚ) (x : ℚ),
      scanBest env lam ts (some (objAt env lam x, x, statsAt env lam x)) =
        some (objAt env lam (pickBest (objAt env lam) x ts),
              pickBest (objAt env lam) x ts,
              statsAt env lam (pickBest (objAt env lam) x ts))
  | [], x => rfl
  | t :: ts, x => by
      rw [scanBest_cons_some, pickBest_cons]
      by_cases hc : objAt env lam x < objAt env lam t
      · rw [if_pos hc, if_pos hc, scanBest_some_eq env lam ts t]
      · rw [if_neg hc, if_neg hc, scanBest_some_eq env lam ts x]

/-- pickBest returns either the seed x, when x already dominates, or an
element of the list that strictly beats x, dominates every list element,
and strictly dominates everything before it in the list. -/
theorem pickBest_spec (f : ℚ → ℚ) :
    ∀ (ts : List ℚ) (x : ℚ),
      (pickBest f x ts = x ∧ ∀ y ∈ ts, f y ≤ f x) ∨
      (∃ l1 l2, ts = l1 ++ pickBest f x ts :: l2 ∧
        (∀ y ∈ ts, f y ≤ f (pickBest f x ts)) ∧
        f x < f (pickBest f x ts) ∧
        (∀ y ∈ l1, f y < f (pickBest f x ts)))
  | [], x => Or.inl ⟨rfl, by simp⟩
  | t :: ts, x => by
      by_cases hc : f x < f t
      · have hp : pickBest f x (t :: ts) = pickBest f t ts := by
          rw [pickBest_cons, if_pos hc]
        rcases pickBest_spec f ts t with ⟨he, hb⟩ | ⟨l1, l2, hsplit, hb, hlt, hl1⟩
        · right
          refine ⟨[], ts, ?_, ?_, ?_, ?_⟩
          · rw [hp, he, List.nil_append]
          · intro y hy
            rw [hp, he]
            rcases List.mem_cons.mp hy with rfl | hy'
            · exact le_refl _
            · exact hb y hy'
          · rw [hp, he]
            exact hc
          · intro y hy
            exact absurd hy (List.not_mem_nil y)
        · right
          refine ⟨t :: l1, l2, ?_, ?_, ?_, ?_⟩
          · rw [hp, List.cons_append, ← hsplit]
          · intro y hy
            rw [hp]
            rcases List.mem_cons.mp hy with rfl | hy'
            · exact le_of_lt hlt
            · exact hb y hy'
          · rw [hp]
            exact lt_trans hc hlt
          · intro y hy
            rw [hp]
            rcases List.mem_cons.mp hy with rfl | hy'
            · exact hlt
            · exact hl1 y hy'
      · have hp : pickBest f x (t :: ts) = pickBest f x ts := by
          rw [pickBest_cons, if_neg hc]
        rcases pickBest_spec f ts x with ⟨he, hb⟩ | ⟨l1, l2, hsplit, hb, hlt, hl1⟩
        · left
          refine ⟨hp.trans he, ?_⟩
          intro y hy
          rcases List.mem_cons.mp hy with rfl | hy'
          · exact not_lt.mp hc
          · exact hb y hy'
        · right
          refine ⟨t :: l1, l2, ?_, ?_, ?_, ?_⟩
          · rw [hp, List.cons_append, ← hsplit]
          · intro y hy
            rw [hp]
            rcases List.mem_cons.mp hy with rfl | hy'
            · exact le_trans (not_lt.mp hc) (le_of_lt hlt)
            · exact hb y hy'
          · rw [hp]
            exact hlt
          · intro y hy
            rw [hp]
            rcases List.mem_cons.mp hy with rfl | hy'
            · exact lt_of_le_of_lt (not_lt.mp hc) hlt
            · exact hl1 y hy'

/-- Claim C3: sweep_lambda returns exactly one record per penalty-grid
entry, in grid order; each record carries that penalty, the statistics of
its selected threshold, and a t_star that attains the maximal objective on
the threshold grid, with every strictly earlier grid threshold strictly
below it (strict-greater selection keeps the earliest maximum). -/
theorem C3_sweep_lambda_selection (env : StrategicLendingEnv)
    (lg tg : List ℚ) (h : tg ≠ []) :
    (env.sweep_lambda lg tg).length = lg.length ∧
    ∀ (i : ℕ) (lam : ℚ), lg[i]? = some lam →
      ∃ r : SweepRecord,
        (env.sweep_lambda lg tg)[i]? = some (some r) ∧
        r.lam = lam ∧
        r.stats = statsAt env lam r.t_star ∧
        ∃ l1 l2, tg = l1 ++ r.t_star :: l2 ∧
          (∀ y ∈ tg, objAt env lam y ≤ objAt env lam r.t_star) ∧
          (∀ y ∈ l1, objAt env lam y < objAt env lam r.t_star) := by
  obtain ⟨t0, rest, rfl⟩ := List.exists_cons_of_ne_nil h
  refine ⟨by simp [StrategicLendingEnv.sweep_lambda], ?_⟩
  intro i lam hi
  refine ⟨⟨lam, pickBest (objAt env lam) t0 rest,
    statsAt env lam (pickBest (objAt env lam) t0 rest)⟩, ?_, rfl, rfl, ?_⟩
  · rw [StrategicLendingEnv.sweep_lambda, List.getElem?_map, hi]
    simp only [Option.map_some']
    rw [scanBest_cons_none, scanBest_some_eq env lam rest t0]
    rfl
  · rcases pickBest_spec (objAt env lam) rest t0 with
      ⟨he, hb⟩ | ⟨l1, l2, hsplit, hb, hlt, hl1⟩
    · refine ⟨[], rest, by rw [he, List.nil_append], ?_, ?_⟩
      · intro y hy
        rw [he]
        rcases List.mem_cons.mp hy with rfl | hy'
        · exact le_refl _
        · exact hb y hy'
      · intro y hy
        exact absurd hy (List.not_mem_nil y)
    · refine ⟨t0 :: l1, l2, by rw [List.cons_append, ← hsplit], ?_, ?_⟩
      · intro y hy
        rcases List.mem_cons.mp hy with rfl | hy'
        · exact le_of_lt hlt
        · exact hb y hy'
      · intro y hy
        rcases List.mem_cons.mp hy with rfl | hy'
        · exact hlt
        · exact hl1 y hy'

/-- Witness for C3 on a concrete two-threshold grid, instantiated at the
first penalty-grid entry. -/
theorem C3_sweep_lambda_selection_witness :
    (([0, 1] : List ℚ) ≠ []) ∧
    (([0] : List ℚ))[0]? = some 0 ∧
    ((StrategicLendingEnv.mk (1/5) (-1/5)
        [Borrower.mk 1 1 0 1 (1/2) true]).sweep_lambda [0] [0, 1]).length
      = ([0] : List ℚ).length ∧
    ∃ r : SweepRecord,
      ((StrategicLendingEnv.mk (1/5) (-1/5)
        [Borrower.mk 1 1 0 1 (1/2) true]).sweep_lambda [0] [0, 1])[0]?
          = some (some r) ∧
      r.lam = 0 ∧
      r.stats = statsAt (StrategicLendingEnv.mk (1/5) (-1/5)
        [Borrower.mk 1 1 0 1 (1/2) true]) 0 r.t_star ∧
      ∃ l1 l2, ([0, 1] : List ℚ) = l1 ++ r.t_star :: l2 ∧
        (∀ y ∈ ([0, 1] : List ℚ),
          objAt (StrategicLendingEnv.mk (1/5) (-1/5)
            [Borrower.mk 1 1 0 1 (1/2) true]) 0 y ≤
          objAt (StrategicLendingEnv.mk (1/5) (-1/5)
            [Borrower.mk 1 1 0 1 (1/2) true]) 0 r.t_star) ∧
        (∀ y ∈ l1,
          objAt (StrategicLendingEnv.mk (1/5) (-1/5)
            [Borrower.mk 1 1 0 1 (1/2) true]) 0 y <
          objAt (StrategicLendingEnv.mk (1/5) (-1/5)
            [Borrower.mk 1 1 0 1 (1/2) true]) 0 r.t_star) := by
  have h := C3_sweep_lambda_selection
    (StrategicLendingEnv.mk (1/5) (-1/5) [Borrower.mk 1 1 0 1 (1/2) true])
    [0] [0, 1] (by simp)
  exact ⟨by simp, by simp, h.1, h.2 0 0 (by simp)⟩

/-- One parameter regime record pushed into results by the explorer
(src/util/sweep_params.py, lines 75-94). -/
structure Regime where
  p_L : ℚ
  b : ℚ
  h : ℚ
  k_L : ℚ
  k_H : ℚ
  pi_G : ℚ
  pi_B : ℚ
  t_star : ℚ
  Pi : ℚ
  H : ℕ
  H_frac : ℚ
  acc_L : ℚ
  acc_H : ℚ
  cost_L : ℚ
  cost_H : ℚ
  deriving Repr, DecidableEq

/-- Descending comparison on harm fraction used to rank regimes. -/
def regGE (a b : Regime) : Bool :=
  decide (b.H_frac ≤ a.H_frac)

/-- The ranking step of main (src/util/sweep_params.py, lines 96-103):
Python sorted is a stable sort, and reverse=True orders by descending key
with ties kept in enumeration order; modelled by a stable merge sort under
the reversed comparison. -/
def sortedRegimes (results : List Regime) : List Regime :=
  results.mergeSort regGE

/-- Sort descending by harm fraction, then keep the top K
(src/util/sweep_params.py, lines 96-103). -/
def rankRegimes (results : List Regime) (K : ℕ) : List Regime :=
  (sortedRegimes results).take K

theorem regGE_trans (a b c : Regime) (hab : regGE a b) (hbc : regGE b c) :
    regGE a c := by
  simp only [regGE, decide_eq_true_eq] at *
  exact le_trans hbc hab

theorem regGE_total (a b : Regime) : regGE a b || regGE b a := by
  simp only [regGE, Bool.or_eq_true, decide_eq_true_eq]
  exact le_total b.H_frac a.H_frac

/-- Claim C6: the explorer output is the enumerated regimes sorted by harm
fraction H/N in descending order, truncated to the top K; the sorted list
is a permutation of the input, and two regimes with equal harm fraction
keep their original enumeration order (stable sort). -/
theorem C6_rank_regimes (results : List Regime) (K : ℕ) :
    rankRegimes results K = (sortedRegimes results).take K ∧
    (sortedRegimes results).Perm results ∧
    (sortedRegimes results).Pairwise (fun a b => b.H_frac ≤ a.H_frac) ∧
    ∀ a b : Regime, a.H_frac = b.H_frac → [a, b].Sublist results →
      [a, b].Sublist (sortedRegimes results) := by
  refine ⟨rfl, List.mergeSort_perm results regGE, ?_, ?_⟩
  · have hs := @List.sorted_mergeSort Regime regGE regGE_trans regGE_total results
    exact hs.imp (fun hab => by
      simpa only [regGE, decide_eq_true_eq] using hab)
  · intro a b heq hsub
    have hab : regGE a b := by
      simp only [regGE, decide_eq_true_eq]
      exact le_of_eq heq.symm
    exact List.pair_sublist_mergeSort regGE_trans regGE_total hab hsub

/-- Witness for C6: in a three-regime list where the last two tie on harm
fraction, the tied pair keeps its order in the sorted output. -/
theorem C6_rank_regimes_witness :
    ((Regime.mk 0 0 0 0 0 0 0 0 0 1 (1/2) 0 0 0 0).H_frac =
      (Regime.mk 1 0 0 0 0 0 0 0 0 2 (1/2) 0 0 0 0).H_frac) ∧
    ([Regime.mk 0 0 0 0 0 0 0 0 0 1 (1/2) 0 0 0 0,
      Regime.mk 1 0 0 0 0 0 0 0 0 2 (1/2) 0 0 0 0].Sublist
      [Regime.mk 2 0 0 0 0 0 0 0 0 3 (3/4) 0 0 0 0,
       Regime.mk 0 0 0 0 0 0 0 0 0 1 (1/2) 0 0 0 0,
       Regime.mk 1 0 0 0 0 0 0 0 0 2 (1/2) 0 0 0 0]) ∧
    ([Regime.mk 0 0 0 0 0 0 0 0 0 1 (1/2) 0 0 0 0,
      Regime.mk 1 0 0 0 0 0 0 0 0 2 (1/2) 0 0 0 0].Sublist
      (sortedRegimes
        [Regime.mk 2 0 0 0 0 0 0 0 0 3 (3/4) 0 0 0 0,
         Regime.mk 0 0 0 0 0 0 0 0 0 1 (1/2) 0 0 0 0,
         Regime.mk 1 0 0 0 0 0 0 0 0 2 (1/2) 0 0 0 0])) := by
  refine ⟨rfl, List.Sublist.cons _ (List.Sublist.refl _), ?_⟩
  exact (C6_rank_regimes
    [Regime.mk 2 0 0 0 0 0 0 0 0 3 (3/4) 0 0 0 0,
     Regime.mk 0 0 0 0 0 0 0 0 0 1 (1/2) 0 0 0 0,
     Regime.mk 1 0 0 0 0 0 0 0 0 2 (1/2) 0 0 0 0] 3).2.2.2 _ _ rfl
    (List.Sublist.cons _ (List.Sublist.refl _))

/-- Machine-float value with IEEE special values: NaN, the two infinities,
and finite values kept exact as rationals. Used only where non-finite
values can reach the grid scan. -/
inductive Fl where
  | nan : Fl
  | negInf : Fl
  | posInf : Fl
  | fin : ℚ → Fl
  deriving Repr, DecidableEq

/-- IEEE negation on the special values. -/
def fneg : Fl → Fl
  | Fl.nan => Fl.nan
  | Fl.negInf => Fl.posInf
  | Fl.posInf => Fl.negInf
  | Fl.fin a => Fl.fin (-a)

/-- IEEE addition on the special values; finite sums stay exact. -/
def fadd : Fl → Fl → Fl
  | Fl.nan, _ => Fl.nan
  | _, Fl.nan => Fl.nan
  | Fl.posInf, Fl.negInf => Fl.nan
  | Fl.negInf, Fl.posInf => Fl.nan
  | Fl.posInf, _ => Fl.posInf
  | _, Fl.posInf => Fl.posInf
  | Fl.negInf, _ => Fl.negInf
  | _, Fl.negInf => Fl.negInf
  | Fl.fin a, Fl.fin b => Fl.fin (a + b)

/-- IEEE subtraction. -/
def fsub (a b : Fl) : Fl :=
  fadd a (fneg b)

/-- IEEE multiplication on the special values; infinity times zero is NaN. -/
def fmul : Fl → Fl → Fl
  | Fl.nan, _ => Fl.nan
  | _, Fl.nan => Fl.nan
  | Fl.posInf, Fl.posInf => Fl.posInf
  | Fl.posInf, Fl.negInf => Fl.negInf
  | Fl.negInf, Fl.posInf => Fl.negInf
  | Fl.negInf, Fl.negInf => Fl.posInf
  | Fl.posInf, Fl.fin b =>
      if 0 < b then Fl.posInf else if b < 0 then Fl.negInf else Fl.nan
  | Fl.fin a, Fl.posInf =>
      if 0 < a then Fl.posInf else if a < 0 then Fl.negInf else Fl.nan
  | Fl.negInf, Fl.fin b =>
      if 0 < b then Fl.negInf else if b < 0 then Fl.posInf else Fl.nan
  | Fl.fin a, Fl.negInf =>
      if 0 < a then Fl.negInf else if a < 0 then Fl.posInf else Fl.nan
  | Fl.fin a, Fl.fin b => Fl.fin (a * b)

/-- IEEE strict greater-than: every comparison involving NaN is false. -/
def fgt : Fl → Fl → Bool
  | Fl.nan, _ => false
  | _, Fl.nan => false
  | Fl.posInf, Fl.posInf => false
  | Fl.posInf, _ => true
  | _, Fl.posInf => false
  | Fl.negInf, _ => false
  | Fl.fin _, Fl.negInf => true
  | Fl.fin a, Fl.fin b => decide (b < a)

/-- Whether a float-model value is finite. -/
def isFiniteF : Fl → Bool
  | Fl.fin _ => true
  | _ => false

/-- Environment whose per-loan profits may carry IEEE special values. -/
structure EnvF where
  pi_G : Fl
  pi_B : Fl
  borrowers : List Borrower
  deriving Repr, DecidableEq

/-- The objective computation of evaluate_threshold
(src/env/environment.py, lines 95-150) with IEEE special values carried
through the lender-side arithmetic: profit accumulation and
objective = Pi - lam * H. Borrower-side arithmetic involves only the finite
borrower fields and stays exact; the group statistics do not feed the
objective and are not modelled here. -/
def evaluateObjF (env : EnvF) (t : ℚ) (lam : Fl) : Fl :=
  let acc := env.borrowers.foldl
    (fun (acc : Fl × ℕ) br =>
      let a := br.best_response t
      let s := br.z + a
      let accepted : Bool := decide (s ≥ t)
      let good := br.is_good
      let Pi := if accepted
        then (if good then fadd acc.1 env.pi_G else fadd acc.1 env.pi_B)
        else acc.1
      let H := if !accepted && good then acc.2 + 1 else acc.2
      (Pi, H))
    (Fl.fin 0, 0)
  fsub acc.1 (fmul lam (Fl.fin (acc.2 : ℚ)))

/-- The grid scan with float comparison semantics
(src/env/environment.py, lines 161-171, and src/util/sweep_params.py,
lines 16-22): best_obj starts at -infinity and best_t unset; a grid point
is installed exactly when fgt obj best_obj. Returns the selected threshold
and the winning objective. -/
def scanBestF (env : EnvF) (lam : Fl) :
    List ℚ → Fl → Option ℚ → Option ℚ × Fl
  | [], bobj, bt => (bt, bobj)
  | t :: ts, bobj, bt =>
      let obj := evaluateObjF env t lam
      if fgt obj bobj then scanBestF env lam ts obj (some t)
      else scanBestF env lam ts bobj bt

/-- find_unregulated_optimum in the float model
(src/util/sweep_params.py, lines 11-24): the scan at lam = 0. -/
def find_unregulated_optimumF (env : EnvF) (t_grid : List ℚ) :
    Option ℚ × Fl :=
  scanBestF env (Fl.fin 0) t_grid Fl.negInf none

theorem scanBestF_cons (env : EnvF) (lam : Fl) (t : ℚ) (ts : List ℚ)
    (bobj : Fl) (bt : Option ℚ) :
    scanBestF env lam (t :: ts) bobj bt =
      if fgt (evaluateObjF env t lam) bobj
      then scanBestF env lam ts (evaluateObjF env t lam) (some t)
      else scanBestF env lam ts bobj bt := rfl

theorem fgt_nan_left (x : Fl) : fgt Fl.nan x = false := by
  cases x <;> rfl

/-- Counterexample to claim C5 as stated: with pi_G = +infinity, a single
accepted good borrower makes the objective +infinity, and the grid scan of
find_unregulated_optimum lets this non-finite value win the
max-comparison and selects its threshold, instead of detecting and
excluding it. -/
theorem C5_nonfinite_wins_counterexample :
    isFiniteF (find_unregulated_optimumF
      (EnvF.mk Fl.posInf (Fl.fin (-1)) [Borrower.mk 1 1 0 1 1 true])
      [0]).2 = false ∧
    find_unregulated_optimumF
      (EnvF.mk Fl.posInf (Fl.fin (-1)) [Borrower.mk 1 1 0 1 1 true])
      [0] = (some 0, Fl.posInf) := by
  have hbr : (Borrower.mk 1 1 0 1 1 true).best_response 0 = 0 := by
    norm_num [Borrower.best_response]
  have hobj : evaluateObjF
      (EnvF.mk Fl.posInf (Fl.fin (-1)) [Borrower.mk 1 1 0 1 1 true])
      0 (Fl.fin 0) = Fl.posInf := by
    simp only [evaluateObjF, List.foldl_cons, List.foldl_nil, hbr]
    norm_num [Borrower.is_good, fadd, fsub, fneg, fmul]
  have hscan : find_unregulated_optimumF
      (EnvF.mk Fl.posInf (Fl.fin (-1)) [Borrower.mk 1 1 0 1 1 true])
      [0] = (some 0, Fl.posInf) := by
    rw [find_unregulated_optimumF, scanBestF_cons, hobj]
    rfl
  rw [hscan]
  exact ⟨rfl, rfl⟩

/-- Claim C5 amended: a NaN objective value never wins the strict-greater
comparison (every IEEE comparison with NaN is false), so a grid point whose
objective is NaN never replaces the running best and is excluded from the
best-threshold selection; infinite objectives, however, are not excluded
(a +infinity objective wins the scan), and no degenerate-outcome report is
produced. -/
theorem C5_nan_never_selected (env : EnvF) (lam : Fl) (t : ℚ) (ts : List ℚ)
    (bobj : Fl) (bt : Option ℚ)
    (hnan : evaluateObjF env t lam = Fl.nan) :
    scanBestF env lam (t :: ts) bobj bt = scanBestF env lam ts bobj bt := by
  rw [scanBestF_cons, hnan, fgt_nan_left]
  simp

/-- Witness for the amended C5: with lam = +infinity and no harmed
borrower, the objective is infinity times zero = NaN, and the scan skips
that grid point. -/
theorem C5_nan_never_selected_witness :
    evaluateObjF
      (EnvF.mk (Fl.fin 1) (Fl.fin (-1))
        [Borrower.mk 1 1 0 1 1 true]) 0 Fl.posInf = Fl.nan ∧
    scanBestF
      (EnvF.mk (Fl.fin 1) (Fl.fin (-1))
        [Borrower.mk 1 1 0 1 1 true]) Fl.posInf [0, 1]
        Fl.negInf none =
      scanBestF
        (EnvF.mk (Fl.fin 1) (Fl.fin (-1))
          [Borrower.mk 1 1 0 1 1 true]) Fl.posInf [1]
          Fl.negInf none := by
  have hbr : (Borrower.mk 1 1 0 1 1 true).best_response 0 = 0 := by
    norm_num [Borrower.best_response]
  have hnan : evaluateObjF
      (EnvF.mk (Fl.fin 1) (Fl.fin (-1))
        [Borrower.mk 1 1 0 1 1 true]) 0 Fl.posInf = Fl.nan := by
    simp only [evaluateObjF, List.foldl_cons, List.foldl_nil, hbr]
    norm_num [Borrower.is_good, fadd, fsub, fneg, fmul]
  exact ⟨hnan, C5_nan_never_selected
    (EnvF.mk (Fl.fin 1) (Fl.fin (-1)) [Borrower.mk 1 1 0 1 1 true])
    Fl.posInf 0 [1] Fl.negInf none hnan⟩

/-- Modelled from the spec: the population is drawn from the seeded
deterministic random stream of the numpy generator (default_rng), which is
not part of this repository; per the spec the same seed must always yield
the same stream, so the stream is modelled as a pure function of the seed
and the position within the stream. -/
def rngUnit (seed pos : ℕ) : ℚ :=
  ((((seed + 1) * 2654435761 + pos * 1442695041 + 1013904223) % 1000000007 : ℕ) : ℚ)
    / 1000000007

/-- Generator state: the seed that created it and the stream position. -/
structure RngState where
  seed : ℕ
  pos : ℕ
  deriving Repr, DecidableEq

/-- A fresh seeded generator at stream position zero. -/
def default_rng (seed : ℕ) : RngState :=
  RngState.mk seed 0

/-- One modelled draw from the normal distribution with the given mean and
standard deviation, advancing the stream. -/
def drawNormal (mean std : ℚ) (st : RngState) : ℚ × RngState :=
  (mean + std * (rngUnit st.seed st.pos - 1/2), RngState.mk st.seed (st.pos + 1))

/-- The vectorized normal draw rng.normal(mean, std, size=n). -/
def drawNormals (mean std : ℚ) (st : RngState) : ℕ → List ℚ × RngState
  | 0 => ([], st)
  | n + 1 =>
      let r := drawNormal mean std st
      let rest := drawNormals mean std r.2 n
      (r.1 :: rest.1, rest.2)

/-- One modelled draw from the uniform distribution on the unit interval,
advancing the stream. -/
def drawUniform (st : RngState) : ℚ × RngState :=
  (rngUnit st.seed st.pos, RngState.mk st.seed (st.pos + 1))

/-- The vectorized uniform draw rng.uniform(size=n). -/
def drawUniforms (st : RngState) : ℕ → List ℚ × RngState
  | 0 => ([], st)
  | n + 1 =>
      let r := drawUniform st
      let rest := drawUniforms r.2 n
      (r.1 :: rest.1, rest.2)

/-- The environment configuration (src/env/environment.py, lines 14-29). -/
structure Config where
  N : ℕ
  p_L : ℚ
  theta : ℚ
  b : ℚ
  h : ℚ
  k_L : ℚ
  k_H : ℚ
  pi_G : ℚ
  pi_B : ℚ
  z_mean : ℚ
  z_std : ℚ
  deriving Repr, DecidableEq

/-- reset_population (src/env/environment.py, lines 59-85): with an
explicit seed the generator is replaced by a fresh seeded one, otherwise
the current stream continues; then N normal draws give the z values, N
uniform draws give the group labels (low-cost when the draw is below p_L),
and the borrowers are built in order with the cost coefficient of their
group. Returns the new population and the final generator state. -/
def reset_population (cfg : Config) (rng : RngState) (seed : Option ℕ) :
    List Borrower × RngState :=
  let rng1 := match seed with
    | some s => default_rng s
    | none => rng
  let zs := drawNormals cfg.z_mean cfg.z_std rng1 cfg.N
  let us := drawUniforms zs.2 cfg.N
  let lows := us.1.map (fun u => decide (u < cfg.p_L))
  (List.zipWith
    (fun z low =>
      Borrower.mk z (if low then cfg.k_L else cfg.k_H) cfg.theta cfg.b cfg.h low)
    zs.1 lows, us.2)

/-- Claim C7: population generation and the downstream computations are
deterministic. Reseeding with an explicit seed discards the prior
generator state, so two independent runs with the same configuration and
seed produce identical populations regardless of their prior random
state, and the sweep output over those populations is identical. -/
theorem C7_reset_population_deterministic (cfg : Config) (s : ℕ)
    (st1 st2 : RngState) (lg tg : List ℚ) :
    (reset_population cfg st1 (some s)).1 =
      (reset_population cfg st2 (some s)).1 ∧
    (StrategicLendingEnv.mk cfg.pi_G cfg.pi_B
        (reset_population cfg st1 (some s)).1).sweep_lambda lg tg =
      (StrategicLendingEnv.mk cfg.pi_G cfg.pi_B
        (reset_population cfg st2 (some s)).1).sweep_lambda lg tg := by
  have h : reset_population cfg st1 (some s) =
      reset_population cfg st2 (some s) := rfl
  exact ⟨congrArg Prod.fst h, by rw [h]⟩

end Lending
